import Mathlib

/-!
Verification of the case-conversion library in src/lib.rs.

Strings are modelled as lists of Unicode scalar values (Lean `Char`).
A Rust panic (the whitespace assertion, an out-of-bounds or
non-character-boundary byte slice, or a rejected identifier) is modelled
as an `Except.error` carrying the kind of abort.

Byte-level notes justifying the char-level model:
the assertion scans the UTF-8 bytes with u8::is_ascii_whitespace; every
matching byte is a one-byte character, so the scan is equivalent to a
scan of the characters.  The slice s[0..1] succeeds exactly when the
string is non-empty and its first character occupies one byte, i.e. has
code point below 128; str::to_uppercase on a one-byte string is ASCII
uppercasing, which Lean's Char.toUpper implements.
-/

namespace ProcMacroTypeName

/-- The abort kinds of the library: the whitespace assertion in
to_pascal_case, the s[0..1] slice panic in capitalize_first_letter, and
the identifier validation of the token constructor. -/
inductive Abort where
  | whitespaceAssert
  | sliceBounds
  | identInvalid
deriving DecidableEq

/-- Rust u8::is_ascii_whitespace, lifted to the character it encodes:
space, tab, newline, form feed, carriage return. -/
def isAsciiWhitespace (c : Char) : Bool :=
  c = ' ' || c = '\t' || c = '\n' || c = '\x0c' || c = '\r'

/-- The separator characters of the split pattern &['_', '-']. -/
def isSep (c : Char) : Bool :=
  c = '_' || c = '-'

/-- Rust str::split on the pattern &['_', '-']: the (possibly empty)
maximal runs between separator occurrences.  The empty string splits
into one empty segment. -/
def splitSep : List Char → List (List Char)
  | [] => [[]]
  | c :: rest =>
    if isSep c then
      [] :: splitSep rest
    else
      match splitSep rest with
      | [] => [[c]]
      | seg :: segs => (c :: seg) :: segs

/-- capitalize_first_letter: s[0..1].to_uppercase() + &s[1..].  The
slice s[0..1] panics when s is empty or its first character is
multi-byte (code point at least 128); otherwise the first character is
ASCII-uppercased and the rest kept. -/
def capitalize_first_letter (s : List Char) : Except Abort (List Char) :=
  match s with
  | [] => Except.error Abort.sliceBounds
  | c :: rest =>
    if c.toNat < 128 then
      Except.ok (Char.toUpper c :: rest)
    else
      Except.error Abort.sliceBounds

/-- The loop of to_pascal_case: capitalize each part in order and append
it to the accumulated output, propagating the first panic. -/
def pascal_parts : List (List Char) → Except Abort (List Char)
  | [] => Except.ok []
  | part :: rest =>
    match capitalize_first_letter part with
    | Except.error e => Except.error e
    | Except.ok cap =>
      match pascal_parts rest with
      | Except.error e => Except.error e
      | Except.ok tail => Except.ok (cap ++ tail)

/-- to_pascal_case: assert that no byte is ASCII whitespace, then split
on the separators and capitalize-and-concatenate every part. -/
def to_pascal_case (s : List Char) : Except Abort (List Char) :=
  if s.any isAsciiWhitespace then
    Except.error Abort.whitespaceAssert
  else
    pascal_parts (splitSep s)

/-- An owned Rust String: the same character data behind a second call
shape. -/
structure RustString where
  chars : List Char

/-- String::as_str: the borrowed view of the owned data. -/
def RustString.as_str (s : RustString) : List Char :=
  s.chars

/-- A proc_macro2::Ident: its text paired with an opaque span.  The span
type is a parameter because the library never inspects it. -/
structure Ident (σ : Type) where
  text : List Char
  span : σ

/-- Ident::to_string: the textual rendering of the token. -/
def Ident.render {σ : Type} (i : Ident σ) : List Char :=
  i.text

/-- Modelled from the spec: the identifier grammar the token constructor
(proc_macro2::Ident::new, not part of this repository) accepts, in its
ASCII fragment: non-empty, not a lone underscore, first character an
ASCII letter or underscore, remaining characters ASCII alphanumeric or
underscore.  In particular the empty text and text beginning with a
digit are rejected. -/
def isValidIdentText (s : List Char) : Bool :=
  match s with
  | [] => false
  | c :: rest =>
    (c.isAlpha || c = '_') && rest.all (fun d => d.isAlphanum || d = '_')
      && !(c = '_' && rest.isEmpty)

/-- Modelled from the spec: Ident::new pairs the text with the
caller-supplied span when the text is a valid identifier and fails at
construction otherwise. -/
def Ident.new {σ : Type} (text : List Char) (span : σ) : Except Abort (Ident σ) :=
  if isValidIdentText text then
    Except.ok (Ident.mk text span)
  else
    Except.error Abort.identInvalid

/-- ToTypeName::to_type_name for &str: to_pascal_case(self). -/
def str_to_type_name (s : List Char) : Except Abort (List Char) :=
  to_pascal_case s

/-- ToTypeName::to_type_name for String: to_pascal_case(self.as_str()). -/
def string_to_type_name (s : RustString) : Except Abort (List Char) :=
  to_pascal_case s.as_str

/-- ToTypeName::to_type_name for &Ident:
to_pascal_case(self.to_string().as_str()). -/
def ident_to_type_name {σ : Type} (i : Ident σ) : Except Abort (List Char) :=
  to_pascal_case i.render

/-- The provided method ToTypeName::to_type_ident:
Ident::new(self.to_type_name().as_str(), span), generic over the result
of the to_type_name call of whichever implementation is used. -/
def to_type_ident {σ : Type} (typeName : Except Abort (List Char)) (span : σ) :
    Except Abort (Ident σ) :=
  match typeName with
  | Except.error e => Except.error e
  | Except.ok t => Ident.new t span

/-- to_type_ident at the &str implementation. -/
def str_to_type_ident {σ : Type} (s : List Char) (span : σ) : Except Abort (Ident σ) :=
  to_type_ident (str_to_type_name s) span

/-- ASCII letter, by code point range. -/
def isAsciiLetter (c : Char) : Bool :=
  (65 ≤ c.toNat && c.toNat ≤ 90) || (97 ≤ c.toNat && c.toNat ≤ 122)

/-- The spec's capitalization of one substring, written from its words:
uppercase the first character (ASCII uppercasing), leave the remaining
characters unchanged, and map the empty substring to itself. -/
def specCapitalize : List Char → List Char
  | [] => []
  | c :: rest => Char.toUpper c :: rest

/-- The spec's conversion algorithm, written from its words: split on
the separators, capitalize every substring, concatenate in order. -/
def specConvert (s : List Char) : List Char :=
  ((splitSep s).map specCapitalize).flatten

theorem splitSep_ne_nil (s : List Char) : splitSep s ≠ [] := by
  cases s with
  | nil => simp [splitSep]
  | cons c rest =>
    simp only [splitSep]
    split
    · simp
    · split <;> simp

theorem isSep_eq_true_iff (c : Char) : isSep c = true ↔ c = '_' ∨ c = '-' := by
  simp [isSep]

theorem mem_of_mem_splitSep {s part : List Char} {c : Char}
    (hp : part ∈ splitSep s) (hc : c ∈ part) : c ∈ s ∧ isSep c = false := by
  induction s generalizing part with
  | nil =>
    simp only [splitSep, List.mem_singleton] at hp
    subst hp
    exact absurd hc (List.not_mem_nil c)
  | cons a rest ih =>
    simp only [splitSep] at hp
    by_cases ha : isSep a = true
    · rw [if_pos ha] at hp
      rcases List.mem_cons.mp hp with h1 | h2
      · subst h1
        exact absurd hc (List.not_mem_nil c)
      · obtain ⟨hm, hs⟩ := ih h2 hc
        exact ⟨List.mem_cons_of_mem a hm, hs⟩
    · rw [if_neg ha] at hp
      rw [Bool.not_eq_true] at ha
      rcases hsplit : splitSep rest with _ | ⟨seg, segs⟩
      · exact absurd hsplit (splitSep_ne_nil rest)
      · rw [hsplit] at hp
        rcases List.mem_cons.mp hp with h1 | h2
        · subst h1
          rcases List.mem_cons.mp hc with h3 | h4
          · subst h3
            exact ⟨List.mem_cons_self c rest, ha⟩
          · have hseg : seg ∈ splitSep rest := by
              rw [hsplit]; exact List.mem_cons_self seg segs
            obtain ⟨hm, hs⟩ := ih hseg h4
            exact ⟨List.mem_cons_of_mem a hm, hs⟩
        · have hpart : part ∈ splitSep rest := by
            rw [hsplit]; exact List.mem_cons_of_mem seg h2
          obtain ⟨hm, hs⟩ := ih hpart hc
          exact ⟨List.mem_cons_of_mem a hm, hs⟩

theorem length_sum_splitSep (s : List Char) :
    ((splitSep s).map List.length).sum + s.countP isSep = s.length := by
  induction s with
  | nil => simp [splitSep]
  | cons a rest ih =>
    simp only [splitSep]
    by_cases ha : isSep a = true
    · rw [if_pos ha]
      simp only [List.map_cons, List.sum_cons, List.countP_cons, List.length_cons, ha,
        if_true, List.length_nil]
      omega
    · rw [if_neg ha]
      rw [Bool.not_eq_true] at ha
      rcases hsplit : splitSep rest with _ | ⟨seg, segs⟩
      · exact absurd hsplit (splitSep_ne_nil rest)
      · rw [hsplit] at ih
        simp only [List.map_cons, List.sum_cons, List.length_cons] at ih ⊢
        simp only [List.countP_cons, ha, Bool.false_eq_true, if_false]
        omega

theorem capitalize_ok_of (c : Char) (restc : List Char) (h : c.toNat < 128) :
    capitalize_first_letter (c :: restc) = Except.ok (Char.toUpper c :: restc) := by
  simp [capitalize_first_letter, h]

theorem capitalize_eq_spec {part cap : List Char}
    (h : capitalize_first_letter part = Except.ok cap) : cap = specCapitalize part := by
  cases part with
  | nil => exact absurd h (fun h2 => Except.noConfusion h2)
  | cons c restc =>
    simp only [capitalize_first_letter] at h
    by_cases h128 : c.toNat < 128
    · rw [if_pos h128] at h
      injection h with h2
      rw [← h2]
      rfl
    · rw [if_neg h128] at h
      exact absurd h (fun h2 => Except.noConfusion h2)

theorem capitalize_length {part cap : List Char}
    (h : capitalize_first_letter part = Except.ok cap) : cap.length = part.length := by
  rw [capitalize_eq_spec h]
  cases part <;> rfl

theorem pascal_parts_ok (parts : List (List Char))
    (h : ∀ part ∈ parts, ∃ cap, capitalize_first_letter part = Except.ok cap) :
    ∃ t, pascal_parts parts = Except.ok t := by
  induction parts with
  | nil => exact ⟨[], rfl⟩
  | cons part rest ih =>
    obtain ⟨cap, hcap⟩ := h part (List.mem_cons_self part rest)
    obtain ⟨tail, htail⟩ := ih (fun p hp => h p (List.mem_cons_of_mem part hp))
    refine ⟨cap ++ tail, ?_⟩
    simp only [pascal_parts, hcap, htail]

theorem pascal_parts_error_of_mem_nil {parts : List (List Char)}
    (h : [] ∈ parts) : pascal_parts parts = Except.error Abort.sliceBounds := by
  induction parts with
  | nil => exact absurd h (List.not_mem_nil [])
  | cons part rest ih =>
    rcases List.mem_cons.mp h with h1 | h2
    · rw [← h1]
      rfl
    · cases part with
      | nil => rfl
      | cons c restc =>
        simp only [pascal_parts, capitalize_first_letter]
        by_cases h128 : c.toNat < 128
        · rw [if_pos h128]
          simp only [ih h2]
        · rw [if_neg h128]

theorem pascal_parts_eq_spec {parts : List (List Char)} {t : List Char}
    (h : pascal_parts parts = Except.ok t) :
    t = (parts.map specCapitalize).flatten := by
  induction parts generalizing t with
  | nil =>
    simp only [pascal_parts] at h
    injection h with h2
    rw [← h2]
    rfl
  | cons part rest ih =>
    cases hcap : capitalize_first_letter part with
    | error e =>
      rw [pascal_parts, hcap] at h
      exact absurd h (fun h2 => Except.noConfusion h2)
    | ok cap =>
      cases hrest : pascal_parts rest with
      | error e =>
        rw [pascal_parts, hcap, hrest] at h
        exact absurd h (fun h2 => Except.noConfusion h2)
      | ok tail =>
        rw [pascal_parts, hcap, hrest] at h
        injection h with h2
        rw [← h2, List.map_cons, List.flatten_cons, capitalize_eq_spec hcap, ih hrest]

theorem pascal_parts_length {parts : List (List Char)} {t : List Char}
    (h : pascal_parts parts = Except.ok t) :
    t.length = (parts.map List.length).sum := by
  induction parts generalizing t with
  | nil =>
    simp only [pascal_parts] at h
    injection h with h2
    rw [← h2]
    rfl
  | cons part rest ih =>
    cases hcap : capitalize_first_letter part with
    | error e =>
      rw [pascal_parts, hcap] at h
      exact absurd h (fun h2 => Except.noConfusion h2)
    | ok cap =>
      cases hrest : pascal_parts rest with
      | error e =>
        rw [pascal_parts, hcap, hrest] at h
        exact absurd h (fun h2 => Except.noConfusion h2)
      | ok tail =>
        rw [pascal_parts, hcap, hrest] at h
        injection h with h2
        rw [← h2, List.length_append, List.map_cons, List.sum_cons,
          capitalize_length hcap, ih hrest]

theorem isSep_toUpper (c : Char) (h128 : c.toNat < 128) (h : isSep c = false) :
    isSep (Char.toUpper c) = false := by
  have key : ∀ n : Fin 128, isSep (Char.ofNat n.val) = false →
      isSep (Char.toUpper (Char.ofNat n.val)) = false := by decide
  have h2 := key ⟨c.toNat, h128⟩
  rw [Char.ofNat_toNat] at h2
  exact h2 h

theorem toUpper_eq_self_of_upper (c : Char) (h1 : 65 ≤ c.toNat) (h2 : c.toNat ≤ 90) :
    Char.toUpper c = c := by
  have key : ∀ n : Fin 128, 65 ≤ n.val → n.val ≤ 90 →
      Char.toUpper (Char.ofNat n.val) = Char.ofNat n.val := by decide
  have h3 := key ⟨c.toNat, by omega⟩ h1 h2
  rwa [Char.ofNat_toNat] at h3

theorem toNat_lt_of_letter_or_sep (c : Char)
    (h : isAsciiLetter c = true ∨ isSep c = true) : c.toNat < 128 := by
  rcases h with h | h
  · simp only [isAsciiLetter, Bool.or_eq_true, Bool.and_eq_true, decide_eq_true_eq] at h
    omega
  · rcases (isSep_eq_true_iff c).mp h with rfl | rfl <;> decide

theorem not_ws_of_letter_or_sep (c : Char)
    (h : isAsciiLetter c = true ∨ isSep c = true) : isAsciiWhitespace c = false := by
  have h128 := toNat_lt_of_letter_or_sep c h
  have key : ∀ n : Fin 128,
      (isAsciiLetter (Char.ofNat n.val) = true ∨ isSep (Char.ofNat n.val) = true) →
      isAsciiWhitespace (Char.ofNat n.val) = false := by decide
  have h2 := key ⟨c.toNat, h128⟩
  rw [Char.ofNat_toNat] at h2
  exact h2 h

theorem tpc_ws (s : List Char) (h : s.any isAsciiWhitespace = true) :
    to_pascal_case s = Except.error Abort.whitespaceAssert := by
  simp only [to_pascal_case]
  rw [if_pos h]

theorem tpc_not_ws (s : List Char) (h : s.any isAsciiWhitespace = false) :
    to_pascal_case s = pascal_parts (splitSep s) := by
  simp only [to_pascal_case]
  rw [if_neg]
  rw [h]
  exact Bool.false_ne_true

theorem ws_false_of_ok {s t : List Char} (hok : to_pascal_case s = Except.ok t) :
    s.any isAsciiWhitespace = false := by
  cases hany : s.any isAsciiWhitespace with
  | false => rfl
  | true =>
    rw [tpc_ws s hany] at hok
    exact absurd hok (fun h2 => Except.noConfusion h2)

theorem no_sep_of_pascal_parts_ok {parts : List (List Char)} {t : List Char}
    (h : pascal_parts parts = Except.ok t)
    (hparts : ∀ part ∈ parts, ∀ c ∈ part, isSep c = false) :
    ∀ d ∈ t, isSep d = false := by
  induction parts generalizing t with
  | nil =>
    simp only [pascal_parts] at h
    injection h with h2
    rw [← h2]
    intro d hd
    exact absurd hd (List.not_mem_nil d)
  | cons part rest ih =>
    cases hcap : capitalize_first_letter part with
    | error e =>
      rw [pascal_parts, hcap] at h
      exact absurd h (fun h2 => Except.noConfusion h2)
    | ok cap =>
      cases hrest : pascal_parts rest with
      | error e =>
        rw [pascal_parts, hcap, hrest] at h
        exact absurd h (fun h2 => Except.noConfusion h2)
      | ok tail =>
        rw [pascal_parts, hcap, hrest] at h
        injection h with h2
        rw [← h2]
        intro d hd
        rcases List.mem_append.mp hd with hd1 | hd2
        · cases part with
          | nil => exact absurd hcap (fun h3 => Except.noConfusion h3)
          | cons c restc =>
            simp only [capitalize_first_letter] at hcap
            by_cases h128 : c.toNat < 128
            · rw [if_pos h128] at hcap
              injection hcap with h3
              rw [← h3] at hd1
              rcases List.mem_cons.mp hd1 with h4 | h5
              · rw [h4]
                exact isSep_toUpper c h128
                  (hparts _ (List.mem_cons_self _ _) c (List.mem_cons_self _ _))
              · exact hparts _ (List.mem_cons_self _ _) d (List.mem_cons_of_mem c h5)
            · rw [if_neg h128] at hcap
              exact absurd hcap (fun h3 => Except.noConfusion h3)
        · exact ih hrest (fun p hp => hparts p (List.mem_cons_of_mem part hp)) d hd2

/-- C1, corrected: the input "_foo" contains only ASCII letters and
separators and no whitespace, yet convert aborts on it with the slice
panic, because the leading separator produces an empty first segment. -/
theorem convert_aborts_on_leading_separator :
    (("_foo".toList).all (fun c => isAsciiLetter c || isSep c) = true) ∧
    (("_foo".toList).any isAsciiWhitespace = false) ∧
    to_pascal_case ("_foo".toList) = Except.error Abort.sliceBounds :=
  ⟨by decide, by decide, rfl⟩

/-- C1, amended: for every input containing only ASCII letters and the
separators, in which every segment produced by splitting on the
separators is non-empty (no leading, trailing, or adjacent separators
and a non-empty input), convert terminates normally. -/
theorem convert_total_on_nonempty_words (s : List Char)
    (hchars : s.all (fun c => isAsciiLetter c || isSep c) = true)
    (hparts : (splitSep s).all (fun part => !part.isEmpty) = true) :
    ∃ t, to_pascal_case s = Except.ok t := by
  have hws : s.any isAsciiWhitespace = false := by
    cases hany : s.any isAsciiWhitespace with
    | false => rfl
    | true =>
      obtain ⟨c, hc, hwsc⟩ := List.any_eq_true.mp hany
      have hlet := List.all_eq_true.mp hchars c hc
      rw [Bool.or_eq_true] at hlet
      rw [not_ws_of_letter_or_sep c hlet] at hwsc
      exact absurd hwsc Bool.false_ne_true
  have hcaps : ∀ part ∈ splitSep s, ∃ cap, capitalize_first_letter part = Except.ok cap := by
    intro part hp
    cases part with
    | nil =>
      have h1 := List.all_eq_true.mp hparts [] hp
      exact absurd h1 (by decide)
    | cons c restc =>
      obtain ⟨hcs, hcsep⟩ := mem_of_mem_splitSep hp (List.mem_cons_self c restc)
      have hlet := List.all_eq_true.mp hchars c hcs
      rw [Bool.or_eq_true] at hlet
      have hletter : isAsciiLetter c = true := by
        rcases hlet with h | h
        · exact h
        · rw [h] at hcsep
          exact absurd hcsep (by decide)
      have h128 : c.toNat < 128 := toNat_lt_of_letter_or_sep c (Or.inl hletter)
      exact ⟨Char.toUpper c :: restc, capitalize_ok_of c restc h128⟩
  obtain ⟨t, ht⟩ := pascal_parts_ok (splitSep s) hcaps
  refine ⟨t, ?_⟩
  rw [tpc_not_ws s hws]
  exact ht

/-- C1 witness: the theorem applied to "foo_bar". -/
theorem convert_total_on_nonempty_words_witness :
    (("foo_bar".toList).all (fun c => isAsciiLetter c || isSep c) = true) ∧
    ((splitSep ("foo_bar".toList)).all (fun part => !part.isEmpty) = true) ∧
    (∃ t, to_pascal_case ("foo_bar".toList) = Except.ok t) :=
  ⟨by decide, by decide,
    convert_total_on_nonempty_words ("foo_bar".toList) (by decide) (by decide)⟩

/-- C2, corrected: capitalizing an empty segment is not a no-op but the
out-of-bounds slice panic, so convert aborts on "", on "_foo" and on
"foo__bar" instead of returning "", "Foo" and "FooBar". -/
theorem convert_empty_segment_panics :
    to_pascal_case ("".toList) = Except.error Abort.sliceBounds ∧
    to_pascal_case ("".toList) ≠ Except.ok ("".toList) ∧
    to_pascal_case ("_foo".toList) ≠ Except.ok ("Foo".toList) ∧
    to_pascal_case ("foo__bar".toList) ≠ Except.ok ("FooBar".toList) ∧
    capitalize_first_letter ("".toList) = Except.error Abort.sliceBounds :=
  ⟨rfl, fun h => Except.noConfusion h, fun h => Except.noConfusion h,
    fun h => Except.noConfusion h, rfl⟩

/-- C2, amended: for every whitespace-free input whose split on the
separators yields an empty segment, convert aborts with the slice panic
of capitalize_first_letter rather than treating the segment as an empty
contribution. -/
theorem convert_aborts_on_empty_segment (s : List Char)
    (hws : s.any isAsciiWhitespace = false)
    (h : [] ∈ splitSep s) :
    to_pascal_case s = Except.error Abort.sliceBounds := by
  rw [tpc_not_ws s hws]
  exact pascal_parts_error_of_mem_nil h

/-- C2 witness: the theorem applied to "_foo". -/
theorem convert_aborts_on_empty_segment_witness :
    (("_foo".toList).any isAsciiWhitespace = false) ∧
    ([] ∈ splitSep ("_foo".toList)) ∧
    to_pascal_case ("_foo".toList) = Except.error Abort.sliceBounds :=
  ⟨by decide, by decide,
    convert_aborts_on_empty_segment ("_foo".toList) (by decide) (by decide)⟩

/-- C3: every input containing an ASCII whitespace character anywhere
makes convert abort with the whitespace assertion failure. -/
theorem convert_aborts_on_whitespace (s : List Char)
    (h : s.any isAsciiWhitespace = true) :
    to_pascal_case s = Except.error Abort.whitespaceAssert :=
  tpc_ws s h

/-- C3 witness: the theorem applied to " foo". -/
theorem convert_aborts_on_whitespace_witness :
    ((" foo".toList).any isAsciiWhitespace = true) ∧
    to_pascal_case (" foo".toList) = Except.error Abort.whitespaceAssert :=
  ⟨by decide, convert_aborts_on_whitespace (" foo".toList) (by decide)⟩

/-- C4: on every whitespace-free input on which it returns, convert
returns exactly the concatenation, in order and with no separator, of
the split segments with their first characters uppercased and all other
characters (existing internal capitals included) unchanged; in
particular convert "foo_bar" is "FooBar" and convert "foo_bar-bazBrr"
is "FooBarBazBrr". -/
theorem convert_is_split_capitalize_concat (s t : List Char)
    (hws : s.any isAsciiWhitespace = false)
    (hok : to_pascal_case s = Except.ok t) :
    t = specConvert s ∧
    to_pascal_case ("foo_bar".toList) = Except.ok ("FooBar".toList) ∧
    to_pascal_case ("foo_bar-bazBrr".toList) = Except.ok ("FooBarBazBrr".toList) := by
  refine ⟨?_, rfl, rfl⟩
  rw [tpc_not_ws s hws] at hok
  exact pascal_parts_eq_spec hok

/-- C4 witness: the theorem applied to "foo_bar". -/
theorem convert_is_split_capitalize_concat_witness :
    (("foo_bar".toList).any isAsciiWhitespace = false) ∧
    (to_pascal_case ("foo_bar".toList) = Except.ok ("FooBar".toList)) ∧
    (("FooBar".toList) = specConvert ("foo_bar".toList) ∧
      to_pascal_case ("foo_bar".toList) = Except.ok ("FooBar".toList) ∧
      to_pascal_case ("foo_bar-bazBrr".toList) = Except.ok ("FooBarBazBrr".toList)) :=
  ⟨by decide, rfl,
    convert_is_split_capitalize_concat ("foo_bar".toList) ("FooBar".toList)
      (by decide) rfl⟩

/-- C5: on every ASCII whitespace-free input on which convert returns
normally, the output contains no separator character and its length is
the input length minus the number of separator characters of the
input. -/
theorem convert_output_no_seps_and_length (s t : List Char)
    (hascii : s.all (fun c => c.toNat < 128) = true)
    (hok : to_pascal_case s = Except.ok t) :
    (∀ d ∈ t, isSep d = false) ∧ t.length = s.length - s.countP isSep := by
  have hws := ws_false_of_ok hok
  rw [tpc_not_ws s hws] at hok
  constructor
  · exact no_sep_of_pascal_parts_ok hok
      (fun part hp c hc => (mem_of_mem_splitSep hp hc).2)
  · have h1 := pascal_parts_length hok
    have h2 := length_sum_splitSep s
    omega

/-- C5 witness: the theorem applied to "foo_bar". -/
theorem convert_output_no_seps_and_length_witness :
    (("foo_bar".toList).all (fun c => c.toNat < 128) = true) ∧
    (to_pascal_case ("foo_bar".toList) = Except.ok ("FooBar".toList)) ∧
    ((∀ d ∈ ("FooBar".toList), isSep d = false) ∧
      ("FooBar".toList).length =
        ("foo_bar".toList).length - ("foo_bar".toList).countP isSep) :=
  ⟨by decide, rfl,
    convert_output_no_seps_and_length ("foo_bar".toList) ("FooBar".toList)
      (by decide) rfl⟩

/-- C6: whenever the converted text is not a syntactically valid bare
identifier, to_type_ident fails at token construction with the
construction failure, which is a different abort kind than the fatal
whitespace contract violation. -/
theorem to_type_ident_fails_on_invalid_ident (σ : Type) (s : List Char) (sp : σ)
    (t : List Char) (hok : str_to_type_name s = Except.ok t)
    (hbad : isValidIdentText t = false) :
    str_to_type_ident s sp = Except.error Abort.identInvalid ∧
    Abort.identInvalid ≠ Abort.whitespaceAssert := by
  refine ⟨?_, by decide⟩
  rw [str_to_type_ident, hok]
  simp only [to_type_ident, Ident.new]
  rw [if_neg]
  rw [hbad]
  exact Bool.false_ne_true

/-- C6 witness: the theorem applied to "9foo", whose conversion "9foo"
begins with a digit. -/
theorem to_type_ident_fails_on_invalid_ident_witness :
    (str_to_type_name ("9foo".toList) = Except.ok ("9foo".toList)) ∧
    (isValidIdentText ("9foo".toList) = false) ∧
    (str_to_type_ident ("9foo".toList) (0 : Nat) = Except.error Abort.identInvalid ∧
      Abort.identInvalid ≠ Abort.whitespaceAssert) :=
  ⟨rfl, by decide,
    to_type_ident_fails_on_invalid_ident Nat ("9foo".toList) 0 ("9foo".toList)
      rfl (by decide)⟩

/-- C7: the three to_type_name variants agree: on borrowed text s, on
the owned string holding s, and on an identifier token rendering to s,
they all return convert s. -/
theorem to_type_name_variants_agree (σ : Type) (s : List Char) (sp : σ) :
    str_to_type_name s = to_pascal_case s ∧
    string_to_type_name (RustString.mk s) = to_pascal_case s ∧
    ident_to_type_name (Ident.mk s sp) = to_pascal_case s :=
  ⟨rfl, rfl, rfl⟩

/-- C8: whenever to_type_ident returns a token, the token's text is
exactly the to_type_name result and its span is the caller-supplied
span, passed through unmodified. -/
theorem to_type_ident_passes_span_through (σ : Type)
    (typeName : Except Abort (List Char)) (sp : σ) (i : Ident σ)
    (h : to_type_ident typeName sp = Except.ok i) :
    typeName = Except.ok i.text ∧ i.span = sp := by
  cases typeName with
  | error e =>
    rw [to_type_ident] at h
    exact absurd h (fun h2 => Except.noConfusion h2)
  | ok t =>
    rw [to_type_ident, Ident.new] at h
    by_cases hv : isValidIdentText t = true
    · rw [if_pos hv] at h
      injection h with h2
      rw [← h2]
      exact ⟨rfl, rfl⟩
    · rw [if_neg hv] at h
      exact absurd h (fun h2 => Except.noConfusion h2)

/-- C8 witness: the theorem applied to the conversion of "foo_bar" with
span 7. -/
theorem to_type_ident_passes_span_through_witness :
    (to_type_ident (str_to_type_name ("foo_bar".toList)) (7 : Nat)
      = Except.ok (Ident.mk ("FooBar".toList) 7)) ∧
    (str_to_type_name ("foo_bar".toList)
        = Except.ok (Ident.mk ("FooBar".toList) (7 : Nat)).text ∧
      (Ident.mk ("FooBar".toList) (7 : Nat)).span = 7) :=
  ⟨rfl,
    to_type_ident_passes_span_through Nat (str_to_type_name ("foo_bar".toList)) 7
      (Ident.mk ("FooBar".toList) 7) rfl⟩

/-- C9: capitalization is idempotent on capitalized words: on any
non-empty word whose first character is already an ASCII uppercase
letter, capitalize_first_letter returns the word unchanged; in
particular it maps "Foo" to "Foo". -/
theorem capitalize_idempotent_on_uppercase (c : Char) (rest : List Char)
    (h1 : 65 ≤ c.toNat) (h2 : c.toNat ≤ 90) :
    capitalize_first_letter (c :: rest) = Except.ok (c :: rest) ∧
    capitalize_first_letter ("Foo".toList) = Except.ok ("Foo".toList) := by
  refine ⟨?_, rfl⟩
  rw [capitalize_ok_of c rest (by omega), toUpper_eq_self_of_upper c h1 h2]

/-- C9 witness: the theorem applied to the word "Foo". -/
theorem capitalize_idempotent_on_uppercase_witness :
    (65 ≤ Char.toNat 'F') ∧ (Char.toNat 'F' ≤ 90) ∧
    (capitalize_first_letter ('F' :: ("oo".toList)) = Except.ok ('F' :: ("oo".toList)) ∧
      capitalize_first_letter ("Foo".toList) = Except.ok ("Foo".toList)) :=
  ⟨by decide, by decide,
    capitalize_idempotent_on_uppercase 'F' ("oo".toList) (by decide) (by decide)⟩

/-- C10: there is a whitespace-free input, with no empty segment, on
which convert still aborts: when a segment begins with a non-ASCII
(multi-byte) character the one-byte slice panics, as on "élan". -/
theorem convert_aborts_on_nonascii_first_char :
    (("élan".toList).any isAsciiWhitespace = false) ∧
    (∀ part ∈ splitSep ("élan".toList), part ≠ []) ∧
    to_pascal_case ("élan".toList) = Except.error Abort.sliceBounds :=
  ⟨by decide, by decide, rfl⟩

end ProcMacroTypeName
